import Mathlib

/-!
# Verification of the `so68/core` cache subsystem

A shallow embedding of the pluggable cache subsystem of the `so68/core`
repository: the in-process memory engine (`cache/memory.go`, type
`MemoryCache`), the configuration defaulting (`config/cache.go`, type
`CacheConfig`), and the engine-selecting factory (`cache/factory.go`).

Modelling choices:
* Go `time.Time` instants are modelled as `Int` (nanoseconds); a cache
  item's `expiration time.Time` is `Option Int`, where `none` stands for
  the zero `time.Time` (`IsZero()` true, "never expires").
  `now.After(e)` is `now > e`; `now.Add(d)` is `now + d`;
  `time.Until(e)` is `e - now`. Go `time.Duration` is `Int`.
* The `map[string]*cacheItem` table is an association list with unique
  keys (`Store`); map assignment replaces, `delete` removes.
* Go `interface{}` values that the memory engine stores and inspects are
  modelled by the variant `Value`: strings, `int`/`int64` integers,
  booleans, `[]interface{}` lists, `map[string]interface{}` hashes and
  `map[interface{}]bool` sets.  `float64` values are outside the model
  (floating point); no claim below involves them.
* `int64` arithmetic wraps: `wrap64` reduces into `[-2^63, 2^63)`.
* Each operation takes the current instant `now` explicitly and returns
  its Go result paired with the table after the call (lazy expiry may
  delete entries even on the read path, exactly as in the source).
* `context.Context` arguments are ignored by the memory engine in the
  source and are omitted.
-/

/-- The variant of Go `interface{}` values the memory engine stores:
`string`, `int`/`int64`, `bool`, `[]interface{}` (ordered list),
`map[string]interface{}` (hash, as an assoc list in insertion order) and
`map[interface{}]bool` (set, as a duplicate-free list). -/
inductive Value where
  | vstr : String → Value
  | vint : Int → Value
  | vbool : Bool → Value
  | vlist : List Value → Value
  | vhash : List (String × Value) → Value
  | vset : List Value → Value
deriving Repr

mutual

/-- Structural equality on `Value`, used for Go map-key equality of the
`map[interface{}]bool` set representation. -/
def Value.beq : Value → Value → Bool
  | .vstr a, .vstr b => a == b
  | .vint a, .vint b => a == b
  | .vbool a, .vbool b => a == b
  | .vlist a, .vlist b => Value.beqList a b
  | .vhash a, .vhash b => Value.beqHash a b
  | .vset a, .vset b => Value.beqList a b
  | _, _ => false

/-- Pointwise `Value.beq` on lists. -/
def Value.beqList : List Value → List Value → Bool
  | [], [] => true
  | a :: as, b :: bs => Value.beq a b && Value.beqList as bs
  | _, _ => false

/-- Pointwise `Value.beq` on hash entries. -/
def Value.beqHash : List (String × Value) → List (String × Value) → Bool
  | [], [] => true
  | (ka, va) :: as, (kb, vb) :: bs => ka == kb && Value.beq va vb && Value.beqHash as bs
  | _, _ => false

end

instance : BEq Value := ⟨Value.beq⟩

/-- Concatenate strings separated by single spaces, as Go `fmt` does for
slice and map elements. -/
def joinSpace : List String → String
  | [] => ""
  | [s] => s
  | s :: rest => s ++ " " ++ joinSpace rest

mutual

/-- Model of Go `fmt.Sprintf("%v", v)` on the stored variants: strings
print verbatim, integers in decimal, booleans as `true`/`false`, lists as
`[e1 e2 ...]`, hashes and sets as `map[k1:v1 k2:v2 ...]`.  (Go's `fmt`
iterates map keys in sorted/internal order; the model prints entries in
stored order — no theorem below depends on container rendering.) -/
def goFmt : Value → String
  | .vstr s => s
  | .vint n => toString n
  | .vbool b => if b then "true" else "false"
  | .vlist xs => "[" ++ joinSpace (goFmtList xs) ++ "]"
  | .vhash fs => "map[" ++ joinSpace (goFmtHash fs) ++ "]"
  | .vset ms => "map[" ++ joinSpace (goFmtSet ms) ++ "]"

/-- `goFmt` mapped over list elements. -/
def goFmtList : List Value → List String
  | [] => []
  | x :: xs => goFmt x :: goFmtList xs

/-- `goFmt` of hash entries, `field:value`. -/
def goFmtHash : List (String × Value) → List String
  | [] => []
  | (f, v) :: fs => (f ++ ":" ++ goFmt v) :: goFmtHash fs

/-- `goFmt` of set members, `member:true` (the stored `bool` is always
`true`). -/
def goFmtSet : List Value → List String
  | [] => []
  | m :: ms => (goFmt m ++ ":true") :: goFmtSet ms

end

/-- The return conversion used throughout the memory engine:
`switch v := value.(type) { case string: return v; default: return
fmt.Sprintf("%v", v) }`. -/
def renderValue (v : Value) : String :=
  match v with
  | .vstr s => s
  | v => goFmt v

/-- Reduce an integer into the `int64` range `[-2^63, 2^63)`, the
wrap-around semantics of Go `int64` addition and negation. -/
def wrap64 (x : Int) : Int :=
  (x + 2 ^ 63) % 2 ^ 64 - 2 ^ 63

/-- One `cacheItem` of the memory engine: the stored value and the
absolute expiry instant (`none` = zero `time.Time` = never expires). -/
structure Item where
  value : Value
  expiration : Option Int
deriving Repr

/-- The `map[string]*cacheItem` table, as an association list with unique
keys. -/
abbrev Store := List (String × Item)

/-- Map lookup `m.data[key]`. -/
def Store.lookup (m : Store) (k : String) : Option Item :=
  match m with
  | [] => none
  | (k', it) :: rest => if k' = k then some it else Store.lookup rest k

/-- Map assignment `m.data[key] = item`: replaces any existing binding. -/
def Store.insert (m : Store) (k : String) (it : Item) : Store :=
  match m with
  | [] => [(k, it)]
  | (k', it') :: rest =>
      if k' = k then (k, it) :: rest else (k', it') :: Store.insert rest k it

/-- Map deletion `delete(m.data, key)`. -/
def Store.erase (m : Store) (k : String) : Store :=
  match m with
  | [] => []
  | (k', it') :: rest =>
      if k' = k then Store.erase rest k else (k', it') :: Store.erase rest k

/-- The expiry test used by every lazy check and by the sweep:
`!item.expiration.IsZero() && now.After(item.expiration)` — strictly
after. -/
def isExpired (now : Int) (it : Item) : Bool :=
  match it.expiration with
  | none => false
  | some e => now > e

/-! ## Configuration (`config/cache.go`) -/

/-- Go `time.Duration` units, in nanoseconds. -/
def millisecond : Int := 1000000

/-- `time.Second` in nanoseconds. -/
def second : Int := 1000000000

/-- `time.Minute` in nanoseconds. -/
def minute : Int := 60 * second

/-- `time.Hour` in nanoseconds. -/
def hour : Int := 60 * minute

/-- `config.CacheConfig`: the declarative cache tunables.  Durations are
`Int` nanoseconds, counts and sizes are `Int`. -/
structure CacheConfig where
  Driver : String := ""
  Host : String := ""
  Port : Int := 0
  Password : String := ""
  Database : Int := 0
  Prefix : String := ""
  MaxRetries : Int := 0
  MinRetryBackoff : Int := 0
  MaxRetryBackoff : Int := 0
  DialTimeout : Int := 0
  ReadTimeout : Int := 0
  WriteTimeout : Int := 0
  PoolSize : Int := 0
  MinIdleConns : Int := 0
  MaxConnAge : Int := 0
  PoolTimeout : Int := 0
  IdleTimeout : Int := 0
  IdleCheckFreq : Int := 0
  MaxMemory : Int := 0
  CleanupInterval : Int := 0
deriving Repr, DecidableEq

/-- `config.DefaultCacheConfig`. -/
def DefaultCacheConfig : CacheConfig where
  Driver := "redis"
  Host := "localhost"
  Port := 6379
  Database := 0
  Prefix := ""
  MaxRetries := 3
  MinRetryBackoff := 8 * millisecond
  MaxRetryBackoff := 512 * millisecond
  DialTimeout := 5 * second
  ReadTimeout := 3 * second
  WriteTimeout := 3 * second
  PoolSize := 10
  MinIdleConns := 5
  MaxConnAge := hour
  PoolTimeout := 4 * second
  IdleTimeout := 5 * minute
  IdleCheckFreq := minute
  MaxMemory := 100 * 1024 * 1024
  CleanupInterval := 10 * minute

/-- `CacheConfig.SetDefaults`: every zero/empty field is replaced by its
default; already-set fields are untouched.  (`Database` has no clause in
the source; the `Prefix` clause there sets `""` to `""`, a no-op kept for
fidelity.) -/
def CacheConfig.SetDefaults (c : CacheConfig) : CacheConfig :=
  { c with
    Driver := if c.Driver = "" then "redis" else c.Driver
    Host := if c.Host = "" then "localhost" else c.Host
    Port := if c.Port = 0 then 6379 else c.Port
    Prefix := if c.Prefix = "" then "" else c.Prefix
    MaxRetries := if c.MaxRetries = 0 then 3 else c.MaxRetries
    MinRetryBackoff := if c.MinRetryBackoff = 0 then 8 * millisecond else c.MinRetryBackoff
    MaxRetryBackoff := if c.MaxRetryBackoff = 0 then 512 * millisecond else c.MaxRetryBackoff
    DialTimeout := if c.DialTimeout = 0 then 5 * second else c.DialTimeout
    ReadTimeout := if c.ReadTimeout = 0 then 3 * second else c.ReadTimeout
    WriteTimeout := if c.WriteTimeout = 0 then 3 * second else c.WriteTimeout
    PoolSize := if c.PoolSize = 0 then 10 else c.PoolSize
    MinIdleConns := if c.MinIdleConns = 0 then 5 else c.MinIdleConns
    MaxConnAge := if c.MaxConnAge = 0 then hour else c.MaxConnAge
    PoolTimeout := if c.PoolTimeout = 0 then 4 * second else c.PoolTimeout
    IdleTimeout := if c.IdleTimeout = 0 then 5 * minute else c.IdleTimeout
    IdleCheckFreq := if c.IdleCheckFreq = 0 then minute else c.IdleCheckFreq
    MaxMemory := if c.MaxMemory = 0 then 100 * 1024 * 1024 else c.MaxMemory
    CleanupInterval := if c.CleanupInterval = 0 then 10 * minute else c.CleanupInterval }

/-! ## Engine selection (`cache/factory.go`) -/

/-- Error kinds surfaced by the cache subsystem, one constructor per
distinct `fmt.Errorf` site the model reaches. -/
inductive CacheErr where
  | keyNotFound : String → CacheErr
  | fieldNotFound : String → String → CacheErr
  | notAHash : String → CacheErr
  | notAList : String → CacheErr
  | notASet : String → CacheErr
  | listEmpty : String → CacheErr
  | cannotIncrement : CacheErr
  | unsupportedDriver : String → CacheErr
  | connectionFailure : CacheErr
deriving Repr, DecidableEq

/-- A constructed engine, carrying the configuration value that reached
its constructor (`NewRedisCache` threads it into the client options;
`NewMemoryCache` keeps it for the cleanup ticker and logging). -/
inductive Cache where
  | redisCache : CacheConfig → Cache
  | memoryCache : CacheConfig → Cache
deriving Repr, DecidableEq

/-- The configuration held by a constructed engine. -/
def Cache.cfg : Cache → CacheConfig
  | .redisCache c => c
  | .memoryCache c => c

/-- `cache.NewMemoryCache`: always succeeds, stores the given config
verbatim (the cleanup goroutine ticks at `cfg.CleanupInterval`). -/
def NewMemoryCache (cfg : CacheConfig) : Except CacheErr Cache :=
  .ok (.memoryCache cfg)

/-- `cache.NewRedisCache`: builds the client from the given config
verbatim, then pings; construction fails when the bounded-timeout ping
fails.  The network outcome is the explicit parameter `pingOk`. -/
def NewRedisCache (cfg : CacheConfig) (pingOk : Bool) : Except CacheErr Cache :=
  if pingOk then .ok (.redisCache cfg) else .error .connectionFailure

/-- `Factory.CreateCache`: dispatches on `cfg.Driver` and constructs the
matching engine; an unrecognized driver is an error.  Note the source
passes `cfg` to the constructors as given — no `SetDefaults` call here. -/
def Factory.CreateCache (cfg : CacheConfig) (pingOk : Bool) : Except CacheErr Cache :=
  match cfg.Driver with
  | "redis" => NewRedisCache cfg pingOk
  | "memory" => NewMemoryCache cfg
  | d => .error (.unsupportedDriver d)

/-- `Factory.CreateRedisCache`: convenience constructor; builds a config
from scalars, applies `SetDefaults`, then dispatches. -/
def Factory.CreateRedisCache (host : String) (port : Int) (password : String)
    (database : Int) (pingOk : Bool) : Except CacheErr Cache :=
  let cfg : CacheConfig :=
    { Driver := "redis", Host := host, Port := port, Password := password,
      Database := database }
  Factory.CreateCache cfg.SetDefaults pingOk

/-- `Factory.CreateMemoryCache`: convenience constructor; builds a
memory-driver config, applies `SetDefaults`, then dispatches. -/
def Factory.CreateMemoryCache : Except CacheErr Cache :=
  let cfg : CacheConfig := { Driver := "memory" }
  Factory.CreateCache cfg.SetDefaults true

/-! ## In-process engine (`cache/memory.go`) -/

namespace MemoryCache

/-- One tick of the `cleanup` goroutine's body: under the write lock,
scan the whole table and delete every entry with
`!item.expiration.IsZero() && now.After(item.expiration)`. -/
def cleanup (m : Store) (now : Int) : Store :=
  m.filter (fun p => !isExpired now p.2)

/-- `MemoryCache.serialize` is the identity (native in-process storage,
no codec). -/
def serialize (value : Value) : Value :=
  value

/-- `MemoryCache.Get`: absent → `key not found`; lazily-expired → delete
and `key not found`; live → string values verbatim, everything else via
`fmt.Sprintf("%v", ...)`. -/
def Get (m : Store) (now : Int) (key : String) : Except CacheErr String × Store :=
  match m.lookup key with
  | none => (.error (.keyNotFound key), m)
  | some item =>
    if isExpired now item then
      (.error (.keyNotFound key), m.erase key)
    else
      match item.value with
      | .vstr v => (.ok v, m)
      | v => (.ok (goFmt v), m)

/-- `MemoryCache.Set`: unconditional overwrite; `expiration > 0` sets the
absolute expiry `now + expiration`, otherwise the zero time (never
expires).  Never returns an error. -/
def Set (m : Store) (now : Int) (key : String) (value : Value) (expiration : Int) :
    Unit × Store :=
  let item : Item :=
    { value := serialize value
      expiration := if expiration > 0 then some (now + expiration) else none }
  ((), m.insert key item)

/-- `MemoryCache.Delete`: unconditional `delete`; never returns an
error. -/
def Delete (m : Store) (key : String) : Unit × Store :=
  ((), m.erase key)

/-- `MemoryCache.Exists`: absent → `false`; lazily-expired → delete and
`false`; live → `true`.  Never returns an error. -/
def Exists (m : Store) (now : Int) (key : String) : Bool × Store :=
  match m.lookup key with
  | none => (false, m)
  | some item =>
    if isExpired now item then
      (false, m.erase key)
    else
      (true, m)

/-- `MemoryCache.MGet`: one slot per input key, in input order; absent
and lazily-expired keys (deleted on the way) yield `nil` (`none`), live
keys yield the raw stored `item.value`.  Never returns an error. -/
def MGet (m : Store) (now : Int) (keys : List String) :
    List (Option Value) × Store :=
  match keys with
  | [] => ([], m)
  | key :: rest =>
    match m.lookup key with
    | none =>
      let r := MGet m now rest
      (none :: r.1, r.2)
    | some item =>
      if isExpired now item then
        let r := MGet (m.erase key) now rest
        (none :: r.1, r.2)
      else
        let r := MGet m now rest
        (some item.value :: r.1, r.2)

/-- `MemoryCache.MSet`: stores every pair with the same ttl, computed
from one `time.Now()` reading.  (Go iterates the `pairs` map in
unspecified order; the model takes the pairs as a list.)  Never returns
an error. -/
def MSet (m : Store) (now : Int) (pairs : List (String × Value)) (expiration : Int) :
    Unit × Store :=
  match pairs with
  | [] => ((), m)
  | (key, value) :: rest =>
    let item : Item :=
      { value := serialize value
        expiration := if expiration > 0 then some (now + expiration) else none }
    MSet (m.insert key item) now rest expiration

/-- `MemoryCache.MDelete`: deletes each key; never returns an error. -/
def MDelete (m : Store) (keys : List String) : Unit × Store :=
  match keys with
  | [] => ((), m)
  | key :: rest => MDelete (m.erase key) rest

/-- `MemoryCache.Increment`: absent or lazily-expired key behaves as
prior value zero (stores `delta`, no expiry); a stored native number is
incremented by `delta` with `int64` wrap-around (the new item carries no
expiry — the source replaces the whole `cacheItem`); any other stored
value is `cannot increment non-numeric value`.  (The source also accepts
`float64` via `int64(v)` truncation; floats are outside the model.) -/
def Increment (m : Store) (now : Int) (key : String) (delta : Int) :
    Except CacheErr Int × Store :=
  match m.lookup key with
  | none => (.ok delta, m.insert key ⟨.vint delta, none⟩)
  | some item =>
    if isExpired now item then
      ((.ok delta), (m.erase key).insert key ⟨.vint delta, none⟩)
    else
      match item.value with
      | .vint current =>
        let newValue := wrap64 (current + delta)
        (.ok newValue, m.insert key ⟨.vint newValue, none⟩)
      | _ => (.error .cannotIncrement, m)

/-- `MemoryCache.Decrement`: `m.Increment(ctx, key, -delta)` — the `int64`
negation wraps. -/
def Decrement (m : Store) (now : Int) (key : String) (delta : Int) :
    Except CacheErr Int × Store :=
  Increment m now key (wrap64 (-delta))

/-- `MemoryCache.Expire`: absent or lazily-expired (deleted) key →
`key not found`; live key → expiry set to `now + expiration`
unconditionally, value kept. -/
def Expire (m : Store) (now : Int) (key : String) (expiration : Int) :
    Except CacheErr Unit × Store :=
  match m.lookup key with
  | none => (.error (.keyNotFound key), m)
  | some item =>
    if isExpired now item then
      (.error (.keyNotFound key), m.erase key)
    else
      (.ok (), m.insert key ⟨item.value, some (now + expiration)⟩)

/-- `MemoryCache.TTL`: absent → `key not found`; zero expiry → `-1`
(never expires); expired → delete and `key not found`; otherwise the
remaining duration `time.Until(expiration) = e - now`. -/
def TTL (m : Store) (now : Int) (key : String) : Except CacheErr Int × Store :=
  match m.lookup key with
  | none => (.error (.keyNotFound key), m)
  | some item =>
    match item.expiration with
    | none => (.ok (-1), m)
    | some e =>
      if now > e then
        (.error (.keyNotFound key), m.erase key)
      else
        (.ok (e - now), m)

/-- Assignment into a `map[string]interface{}` hash value:
`hashMap[field] = value`. -/
def hashInsert (h : List (String × Value)) (field : String) (v : Value) :
    List (String × Value) :=
  match h with
  | [] => [(field, v)]
  | (f, w) :: rest =>
      if f = field then (field, v) :: rest else (f, w) :: hashInsert rest field v

/-- Lookup in a hash value: `hashMap[field]`. -/
def hashLookup (h : List (String × Value)) (field : String) : Option Value :=
  match h with
  | [] => none
  | (f, w) :: rest => if f = field then some w else hashLookup rest field

/-- Deletion from a hash value: `delete(hashMap, field)`. -/
def hashErase (h : List (String × Value)) (field : String) : List (String × Value) :=
  match h with
  | [] => []
  | (f, w) :: rest =>
      if f = field then hashErase rest field else (f, w) :: hashErase rest field

/-- `MemoryCache.HGet`: absent/lazily-expired key → `key not found`;
non-hash value → `key is not a hash`; missing field → `field not found`;
otherwise the field value rendered as for `Get`. -/
def HGet (m : Store) (now : Int) (key field : String) :
    Except CacheErr String × Store :=
  match m.lookup key with
  | none => (.error (.keyNotFound key), m)
  | some item =>
    if isExpired now item then
      (.error (.keyNotFound key), m.erase key)
    else
      match item.value with
      | .vhash hashMap =>
        match hashLookup hashMap field with
        | none => (.error (.fieldNotFound key field), m)
        | some value =>
          match value with
          | .vstr v => (.ok v, m)
          | v => (.ok (goFmt v), m)
      | _ => (.error (.notAHash key), m)

/-- `MemoryCache.HSet`: an absent key gets a fresh empty hash (no
expiry); a lazily-expired key is deleted and replaced by a fresh empty
hash (no expiry); a live non-hash value is silently replaced in place by
a fresh empty hash (the item's expiry is kept); then every pair is
written into the hash.  Never returns an error. -/
def HSet (m : Store) (now : Int) (key : String) (pairs : List (String × Value)) :
    Unit × Store :=
  let base : Item :=
    match m.lookup key with
    | none => ⟨.vhash [], none⟩
    | some item => if isExpired now item then ⟨.vhash [], none⟩ else item
  let hashMap : List (String × Value) :=
    match base.value with
    | .vhash h => h
    | _ => []
  let newHash := pairs.foldl (fun h p => hashInsert h p.1 (serialize p.2)) hashMap
  ((), m.insert key ⟨.vhash newHash, base.expiration⟩)

/-- `MemoryCache.HGetAll`: absent/lazily-expired key → `key not found`;
non-hash value → `key is not a hash`; otherwise every field rendered as
for `Get`.  (Go map iteration order is unspecified; the model keeps the
hash's stored order.) -/
def HGetAll (m : Store) (now : Int) (key : String) :
    Except CacheErr (List (String × String)) × Store :=
  match m.lookup key with
  | none => (.error (.keyNotFound key), m)
  | some item =>
    if isExpired now item then
      (.error (.keyNotFound key), m.erase key)
    else
      match item.value with
      | .vhash hashMap =>
        (.ok (hashMap.map (fun p => (p.1, renderValue p.2))), m)
      | _ => (.error (.notAHash key), m)

/-- `MemoryCache.HDelete`: absent/lazily-expired key → `key not found`;
non-hash value → `key is not a hash`; otherwise deletes each named
field in place. -/
def HDelete (m : Store) (now : Int) (key : String) (fields : List String) :
    Except CacheErr Unit × Store :=
  match m.lookup key with
  | none => (.error (.keyNotFound key), m)
  | some item =>
    if isExpired now item then
      (.error (.keyNotFound key), m.erase key)
    else
      match item.value with
      | .vhash hashMap =>
        let newHash := fields.foldl (fun h f => hashErase h f) hashMap
        (.ok (), m.insert key ⟨.vhash newHash, item.expiration⟩)
      | _ => (.error (.notAHash key), m)

/-- The common front of the list/set write operations: an absent key
yields a fresh empty container item (no expiry); a lazily-expired key is
deleted and yields a fresh empty container item (no expiry); a live item
is used as is. -/
def writeBase (m : Store) (now : Int) (key : String) (empty : Value) : Item :=
  match m.lookup key with
  | none => ⟨empty, none⟩
  | some item => if isExpired now item then ⟨empty, none⟩ else item

/-- `MemoryCache.LPush`: via `writeBase` with a fresh empty list; a live
non-list value is silently replaced by an empty list (expiry kept); each
pushed value is prepended in argument order.  Never returns an error. -/
def LPush (m : Store) (now : Int) (key : String) (values : List Value) :
    Unit × Store :=
  let base := writeBase m now key (.vlist [])
  let list : List Value :=
    match base.value with
    | .vlist l => l
    | _ => []
  let newList := values.foldl (fun l v => serialize v :: l) list
  ((), m.insert key ⟨.vlist newList, base.expiration⟩)

/-- `MemoryCache.RPush`: as `LPush` but appending on the right. -/
def RPush (m : Store) (now : Int) (key : String) (values : List Value) :
    Unit × Store :=
  let base := writeBase m now key (.vlist [])
  let list : List Value :=
    match base.value with
    | .vlist l => l
    | _ => []
  let newList := list ++ values.map serialize
  ((), m.insert key ⟨.vlist newList, base.expiration⟩)

/-- `MemoryCache.LPop`: absent/lazily-expired key → `key not found`; a
non-list value or an empty list → `list is empty` (one conflated check in
the source); otherwise removes and returns the head, rendered as for
`Get`. -/
def LPop (m : Store) (now : Int) (key : String) : Except CacheErr String × Store :=
  match m.lookup key with
  | none => (.error (.keyNotFound key), m)
  | some item =>
    if isExpired now item then
      (.error (.keyNotFound key), m.erase key)
    else
      match item.value with
      | .vlist (value :: rest) =>
        (.ok (renderValue value), m.insert key ⟨.vlist rest, item.expiration⟩)
      | .vlist [] => (.error (.listEmpty key), m)
      | _ => (.error (.listEmpty key), m)

/-- `MemoryCache.RPop`: as `LPop` on the last element. -/
def RPop (m : Store) (now : Int) (key : String) : Except CacheErr String × Store :=
  match m.lookup key with
  | none => (.error (.keyNotFound key), m)
  | some item =>
    if isExpired now item then
      (.error (.keyNotFound key), m.erase key)
    else
      match item.value with
      | .vlist [] => (.error (.listEmpty key), m)
      | .vlist list =>
        (.ok (renderValue (list.getLastD (.vstr ""))),
         m.insert key ⟨.vlist (list.dropLast), item.expiration⟩)
      | _ => (.error (.listEmpty key), m)

/-- `MemoryCache.LRange`: absent/lazily-expired key → `key not found`;
non-list value → `key is not a list`; otherwise negative indices are
shifted by the length, `start` is clamped below at `0`, `stop` above at
`length - 1`, inverted bounds yield `[]` with no error, and the elements
at indices `start .. stop` are rendered as for `Get` (the source loop
`for i := start; i <= stop; i++ { result[i-start] = ... }`). -/
def LRange (m : Store) (now : Int) (key : String) (start stop : Int) :
    Except CacheErr (List String) × Store :=
  match m.lookup key with
  | none => (.error (.keyNotFound key), m)
  | some item =>
    if isExpired now item then
      (.error (.keyNotFound key), m.erase key)
    else
      match item.value with
      | .vlist list =>
        let length : Int := list.length
        let start1 := if start < 0 then length + start else start
        let stop1 := if stop < 0 then length + stop else stop
        let start2 := if start1 < 0 then 0 else start1
        let stop2 := if stop1 ≥ length then length - 1 else stop1
        if start2 > stop2 then
          (.ok [], m)
        else
          let result := (List.range (stop2 - start2 + 1).toNat).map
            (fun i => renderValue (list.getD (start2.toNat + i) (.vstr "")))
          (.ok result, m)
      | _ => (.error (.notAList key), m)

/-- Insertion into a `map[interface{}]bool` set value:
`set[member] = true` (idempotent; key equality is `Value.beq`). -/
def setInsert (s : List Value) (member : Value) : List Value :=
  if s.contains member then s else s ++ [member]

/-- `MemoryCache.SAdd`: via `writeBase` with a fresh empty set; a live
non-set value is silently replaced by an empty set (expiry kept); each
member is inserted idempotently.  Never returns an error. -/
def SAdd (m : Store) (now : Int) (key : String) (members : List Value) :
    Unit × Store :=
  let base := writeBase m now key (.vset [])
  let set : List Value :=
    match base.value with
    | .vset s => s
    | _ => []
  let newSet := members.foldl (fun s v => setInsert s (serialize v)) set
  ((), m.insert key ⟨.vset newSet, base.expiration⟩)

/-- `MemoryCache.SRem`: absent/lazily-expired key → `key not found`;
non-set value → `key is not a set`; otherwise deletes each member in
place. -/
def SRem (m : Store) (now : Int) (key : String) (members : List Value) :
    Except CacheErr Unit × Store :=
  match m.lookup key with
  | none => (.error (.keyNotFound key), m)
  | some item =>
    if isExpired now item then
      (.error (.keyNotFound key), m.erase key)
    else
      match item.value with
      | .vset set =>
        let newSet := members.foldl
          (fun s v => s.filter (fun x => !(x == serialize v))) set
        (.ok (), m.insert key ⟨.vset newSet, item.expiration⟩)
      | _ => (.error (.notASet key), m)

/-- `MemoryCache.SMembers`: absent/lazily-expired key → `key not found`;
non-set value → `key is not a set`; otherwise every member rendered as
for `Get`.  (Go map iteration order is unspecified; the model keeps the
set's stored order.) -/
def SMembers (m : Store) (now : Int) (key : String) :
    Except CacheErr (List String) × Store :=
  match m.lookup key with
  | none => (.error (.keyNotFound key), m)
  | some item =>
    if isExpired now item then
      (.error (.keyNotFound key), m.erase key)
    else
      match item.value with
      | .vset set => (.ok (set.map renderValue), m)
      | _ => (.error (.notASet key), m)

/-- `MemoryCache.SIsMember`: absent/lazily-expired key → `key not
found`; non-set value → `key is not a set`; otherwise the `set[member]`
membership test. -/
def SIsMember (m : Store) (now : Int) (key : String) (member : Value) :
    Except CacheErr Bool × Store :=
  match m.lookup key with
  | none => (.error (.keyNotFound key), m)
  | some item =>
    if isExpired now item then
      (.error (.keyNotFound key), m.erase key)
    else
      match item.value with
      | .vset set => (.ok (set.contains (serialize member)), m)
      | _ => (.error (.notASet key), m)

end MemoryCache

/-! ## Derived notions used to state the claims -/

/-- The value a key holds "as observed", before any call: `some` of the
stored value when the key is present and not past its expiry, `none`
when absent or expired.  Used to state `MGet`'s alignment contract. -/
def liveValue (m : Store) (now : Int) (k : String) : Option Value :=
  match m.lookup k with
  | none => none
  | some it => if isExpired now it then none else some it.value

/-- The `LRange` bounds contract as the specification words it: shift
negative indices by the length, clamp `start` below at `0` and `stop`
above at `length - 1`, return the empty sequence when the clamped bounds
are inverted, otherwise the slice `start .. stop` (via `drop`/`take`),
rendered. -/
def lrangeSpec (xs : List Value) (start stop : Int) : List String :=
  let n : Int := xs.length
  let s := max (if start < 0 then n + start else start) 0
  let t := min (if stop < 0 then n + stop else stop) (n - 1)
  if s > t then []
  else ((xs.drop s.toNat).take (t - s + 1).toNat).map renderValue

/-! ## Remote engine (`cache/redis.go`), the parts the claims touch

The remote engine forwards every operation to the go-redis client, which
is outside this repository; only the adapter is source.  The remote
keyspace is modelled as text bindings under the transformed keys. -/

/-- The remote store's keyspace as seen through the client: transformed
key → stored text. -/
abbrev RedisStore := List (String × String)

/-- Lookup in the remote keyspace. -/
def RedisStore.lookup (s : RedisStore) (k : String) : Option String :=
  match s with
  | [] => none
  | (k', v) :: rest => if k' = k then some v else RedisStore.lookup rest k

/-- Binding update in the remote keyspace. -/
def RedisStore.insert (s : RedisStore) (k : String) (v : String) : RedisStore :=
  match s with
  | [] => [(k, v)]
  | (k', v') :: rest =>
      if k' = k then (k, v) :: rest else (k', v') :: RedisStore.insert rest k v

/-- `RedisCache.getKey`: `prefix + ":" + key` when a prefix is
configured, else the key unchanged. -/
def RedisCache.getKey (cfg : CacheConfig) (key : String) : String :=
  if cfg.Prefix ≠ "" then cfg.Prefix ++ ":" ++ key else key

/-- Value of a decimal digit character, `none` for non-digits. -/
def digitVal (c : Char) : Option Nat :=
  if '0' ≤ c ∧ c ≤ '9' then some (c.toNat - '0'.toNat) else none

/-- Left fold of decimal digits into a natural number; `none` on any
non-digit. -/
def parseNatAux : List Char → Nat → Option Nat
  | [], acc => some acc
  | c :: rest, acc =>
    match digitVal c with
    | some d => parseNatAux rest (acc * 10 + d)
    | none => none

/-- Modelled from the spec: decimal integer parsing of stored text, as
the remote store applies it to `INCRBY` operands (optional leading minus
sign, decimal digits). -/
def parseInt (s : String) : Option Int :=
  match s.data with
  | [] => none
  | '-' :: rest =>
    if rest = [] then none else (parseNatAux rest 0).map (fun n => -(n : Int))
  | ds => (parseNatAux ds 0).map (fun n => (n : Int))

/-- Modelled from the spec: the remote store's `INCRBY`, to which
`RedisCache.Increment` delegates, is not part of this repository (it
lives in the remote key-value service behind the go-redis client).  Per
the spec's counter contract, an absent key behaves as though the prior
value were zero (create-on-increment); a present value is parsed as an
integer, incremented with `int64` wrap-around and stored back as decimal
text; unparsable text is the `NotNumeric` condition. -/
def redisIncrBy (s : RedisStore) (k : String) (delta : Int) :
    Except CacheErr Int × RedisStore :=
  match s.lookup k with
  | none => (.ok delta, s.insert k (toString delta))
  | some text =>
    match parseInt text with
    | some n =>
      let newValue := wrap64 (n + delta)
      (.ok newValue, s.insert k (toString newValue))
    | none => (.error .cannotIncrement, s)

/-- Modelled from the spec: the remote store's `DECRBY` (behind
`RedisCache.Decrement`) is `INCRBY` with the negated delta (`int64`
negation wraps). -/
def redisDecrBy (s : RedisStore) (k : String) (delta : Int) :
    Except CacheErr Int × RedisStore :=
  redisIncrBy s k (wrap64 (-delta))

/-- `RedisCache.Increment`: forwards to the client's `IncrBy` under the
transformed key. -/
def RedisCache.Increment (cfg : CacheConfig) (s : RedisStore) (key : String)
    (delta : Int) : Except CacheErr Int × RedisStore :=
  redisIncrBy s (RedisCache.getKey cfg key) delta

/-- `RedisCache.Decrement`: forwards to the client's `DecrBy` under the
transformed key. -/
def RedisCache.Decrement (cfg : CacheConfig) (s : RedisStore) (key : String)
    (delta : Int) : Except CacheErr Int × RedisStore :=
  redisDecrBy s (RedisCache.getKey cfg key) delta

/-- The configuration invariant the spec asserts after defaulting: every
numeric/duration field covered by `CacheConfig.SetDefaults` is non-zero.
(`Database` has no defaulting clause in the source — index `0` is the
default redis database — so it is not listed.) -/
def numericFieldsSet (c : CacheConfig) : Prop :=
  c.Port ≠ 0 ∧ c.MaxRetries ≠ 0 ∧ c.MinRetryBackoff ≠ 0 ∧ c.MaxRetryBackoff ≠ 0 ∧
  c.DialTimeout ≠ 0 ∧ c.ReadTimeout ≠ 0 ∧ c.WriteTimeout ≠ 0 ∧ c.PoolSize ≠ 0 ∧
  c.MinIdleConns ≠ 0 ∧ c.MaxConnAge ≠ 0 ∧ c.PoolTimeout ≠ 0 ∧ c.IdleTimeout ≠ 0 ∧
  c.IdleCheckFreq ≠ 0 ∧ c.MaxMemory ≠ 0 ∧ c.CleanupInterval ≠ 0

/-! ## Basic lemmas about the table and `int64` arithmetic -/

theorem Store.lookup_insert (m : Store) (k : String) (it : Item) :
    (m.insert k it).lookup k = some it := by
  induction m with
  | nil => simp [Store.insert, Store.lookup]
  | cons p rest ih =>
    obtain ⟨k', it'⟩ := p
    by_cases h : k' = k <;> simp [Store.insert, Store.lookup, h, ih]

theorem Store.lookup_insert_ne (m : Store) (k k' : String) (it : Item)
    (hne : k' ≠ k) : (m.insert k it).lookup k' = m.lookup k' := by
  have hne' : ¬(k = k') := fun h => hne h.symm
  induction m with
  | nil => simp [Store.insert, Store.lookup, hne']
  | cons p rest ih =>
    obtain ⟨k'', it''⟩ := p
    by_cases h : k'' = k
    · subst h
      simp [Store.insert, Store.lookup, hne']
    · by_cases h2 : k'' = k' <;> simp [Store.insert, Store.lookup, h, h2, hne, ih]

theorem Store.lookup_erase (m : Store) (k : String) :
    (m.erase k).lookup k = none := by
  induction m with
  | nil => simp [Store.erase, Store.lookup]
  | cons p rest ih =>
    obtain ⟨k', it'⟩ := p
    by_cases h : k' = k <;> simp [Store.erase, Store.lookup, h, ih]

theorem Store.lookup_erase_ne (m : Store) (k k' : String) (hne : k' ≠ k) :
    (m.erase k).lookup k' = m.lookup k' := by
  have hne' : ¬(k = k') := fun h => hne h.symm
  induction m with
  | nil => simp [Store.erase, Store.lookup]
  | cons p rest ih =>
    obtain ⟨k'', it''⟩ := p
    by_cases h : k'' = k
    · subst h
      simp [Store.erase, Store.lookup, hne', ih]
    · by_cases h2 : k'' = k' <;> simp [Store.erase, Store.lookup, h, h2, hne, ih]

/-- If the first binding of `k` survives a filter, it is still the first
binding of `k` after the filter. -/
theorem Store.lookup_filter_of_keep (m : Store) (k : String) (it : Item)
    (pred : String × Item → Bool)
    (hl : m.lookup k = some it) (hp : pred (k, it) = true) :
    Store.lookup (m.filter pred) k = some it := by
  induction m with
  | nil => simp [Store.lookup] at hl
  | cons p rest ih =>
    obtain ⟨k', it'⟩ := p
    by_cases h : k' = k
    · subst h
      simp [Store.lookup] at hl
      subst hl
      simp [List.filter_cons, hp, Store.lookup]
    · simp [Store.lookup, h] at hl
      cases hpred : pred (k', it') <;>
        simp [List.filter_cons, hpred, Store.lookup, h, ih hl]

/-- `2 ^ 63` and `2 ^ 64` as integer numerals, for `omega`. -/
theorem two_pow_63_eq : (2 : Int) ^ 63 = 9223372036854775808 := by norm_num

theorem two_pow_64_eq : (2 : Int) ^ 64 = 18446744073709551616 := by norm_num

/-- `int64` wrap-around is the identity on the representable range. -/
theorem wrap64_eq_self (x : Int) (h1 : -2 ^ 63 ≤ x) (h2 : x < 2 ^ 63) :
    wrap64 x = x := by
  unfold wrap64
  rw [two_pow_64_eq]
  rw [two_pow_63_eq] at h1 h2 ⊢
  rw [Int.emod_eq_of_lt (by omega) (by omega)]
  omega

/-- `serialize` is the identity, elementwise. -/
theorem map_serialize (vs : List Value) : vs.map MemoryCache.serialize = vs := by
  induction vs with
  | nil => rfl
  | cons v rest ih => simp [MemoryCache.serialize, ih]

/-- The engine's return conversion, as a single expression: the `switch`
on string values equals `renderValue`. -/
theorem renderValue_vstr (s : String) : renderValue (.vstr s) = s := rfl

/-- An indexed read-out of a list segment equals the `drop`/`take`
slice. -/
theorem range_map_getD_eq_drop_take (xs : List Value) (s len : Nat)
    (h : s + len ≤ xs.length) :
    (List.range len).map (fun i => renderValue (xs.getD (s + i) (.vstr "")))
      = ((xs.drop s).take len).map renderValue := by
  apply List.ext_getElem
  · simp
    omega
  · intro i h1 h2
    simp only [List.length_map, List.length_range] at h1
    have hsi : s + i < xs.length := by omega
    have hd : i < (xs.drop s).length := by simp; omega
    rw [List.getElem_map, List.getElem_range, List.getElem_map,
      List.getElem_take, List.getElem_drop, List.getD_eq_getElem xs _ hsi]

/-! ## Claim theorems -/

/-- After `SetDefaults`, every numeric/duration field it covers is
non-zero. -/
theorem setDefaults_numericFieldsSet (c : CacheConfig) :
    numericFieldsSet c.SetDefaults := by
  simp only [numericFieldsSet, CacheConfig.SetDefaults]
  refine ⟨?_, ?_, ?_, ?_, ?_, ?_, ?_, ?_, ?_, ?_, ?_, ?_, ?_, ?_, ?_⟩ <;>
    · split
      · norm_num [millisecond, second, minute, hour]
      · assumption

/-- C1, counterexample: a configuration whose `Driver` is the recognized
name `"memory"` but whose numeric fields are all zero is accepted by
`Factory.CreateCache` as is — the engine is constructed with
`CleanupInterval = 0` and `PoolSize = 0`, so defaults are not applied by
the factory entry point and a zero value does reach the engine. -/
theorem C1_counterexample :
    Factory.CreateCache { Driver := "memory" } true
      = .ok (.memoryCache { Driver := "memory" })
  ∧ (Cache.memoryCache { Driver := "memory" }).cfg.CleanupInterval = 0
  ∧ (Cache.memoryCache { Driver := "memory" }).cfg.PoolSize = 0 :=
  ⟨rfl, rfl, rfl⟩

/-- C1, amended: `Factory.CreateCache` itself applies no defaults — it
forwards the configuration verbatim to the engine constructor.  Defaults
are applied by `CacheConfig.SetDefaults` (called by the convenience
constructors `CreateMemoryCache`/`CreateRedisCache`, or by the caller),
after which every numeric/duration field covered by `SetDefaults` is
non-zero; in particular both convenience constructors hand the engine a
fully defaulted configuration. -/
theorem C1_defaults_via_setdefaults :
    (∀ (cfg : CacheConfig) (pingOk : Bool) (e : Cache),
        Factory.CreateCache cfg pingOk = .ok e → e.cfg = cfg)
  ∧ (∀ cfg : CacheConfig, numericFieldsSet cfg.SetDefaults)
  ∧ (∀ e : Cache, Factory.CreateMemoryCache = .ok e → numericFieldsSet e.cfg)
  ∧ (∀ (host : String) (port : Int) (password : String) (database : Int)
        (pingOk : Bool) (e : Cache),
        Factory.CreateRedisCache host port password database pingOk = .ok e →
        numericFieldsSet e.cfg) := by
  have hforward : ∀ (cfg : CacheConfig) (pingOk : Bool) (e : Cache),
      Factory.CreateCache cfg pingOk = .ok e → e.cfg = cfg := by
    intro cfg pingOk e h
    unfold Factory.CreateCache at h
    split at h
    · unfold NewRedisCache at h
      split at h
      · injection h with h2
        subst h2
        rfl
      · simp at h
    · unfold NewMemoryCache at h
      injection h with h2
      subst h2
      rfl
    · simp at h
  refine ⟨hforward, setDefaults_numericFieldsSet, ?_, ?_⟩
  · intro e h
    unfold Factory.CreateMemoryCache at h
    have h2 := hforward _ true e h
    rw [h2]
    exact setDefaults_numericFieldsSet _
  · intro host port password database pingOk e h
    unfold Factory.CreateRedisCache at h
    have h2 := hforward _ pingOk e h
    rw [h2]
    exact setDefaults_numericFieldsSet _

/-- C1, witness: the amended theorem applied to the default-driver
memory construction and to a concrete `CreateCache` call. -/
theorem C1_witness :
    (Cache.redisCache DefaultCacheConfig).cfg = DefaultCacheConfig
  ∧ numericFieldsSet
      (Cache.memoryCache (({ Driver := "memory" } : CacheConfig).SetDefaults)).cfg :=
  ⟨C1_defaults_via_setdefaults.1 DefaultCacheConfig true
      (Cache.redisCache DefaultCacheConfig) rfl,
   C1_defaults_via_setdefaults.2.2.1
      (Cache.memoryCache (({ Driver := "memory" } : CacheConfig).SetDefaults)) rfl⟩

/-- C2: on the in-process engine, every read-path operation (`Get`,
`Exists`, `TTL`, `HGet`, `HGetAll`, `LPop`, `RPop`, `LRange`, `SMembers`,
`SIsMember`) on a key whose stored expiry is set and strictly
earlier than `now` deletes the entry on the spot and answers as though
the key never existed; the background sweep removes exactly the entries
failing the same strictly-after test `now > expiresAt`; and a key whose
expiry equals the current instant is still live for both paths. -/
theorem C2_lazy_expiry_agrees_with_sweep (m : Store) (now : Int) (k f : String)
    (it : Item) (hl : m.lookup k = some it) :
    (∀ e : Int, it.expiration = some e → now > e →
        MemoryCache.Get m now k = (.error (.keyNotFound k), m.erase k)
      ∧ MemoryCache.Exists m now k = (false, m.erase k)
      ∧ MemoryCache.TTL m now k = (.error (.keyNotFound k), m.erase k)
      ∧ MemoryCache.HGet m now k f = (.error (.keyNotFound k), m.erase k)
      ∧ MemoryCache.HGetAll m now k = (.error (.keyNotFound k), m.erase k)
      ∧ MemoryCache.LPop m now k = (.error (.keyNotFound k), m.erase k)
      ∧ MemoryCache.RPop m now k = (.error (.keyNotFound k), m.erase k)
      ∧ (∀ start stop : Int,
           MemoryCache.LRange m now k start stop
             = (.error (.keyNotFound k), m.erase k))
      ∧ MemoryCache.SMembers m now k = (.error (.keyNotFound k), m.erase k)
      ∧ (∀ member : Value,
           MemoryCache.SIsMember m now k member
             = (.error (.keyNotFound k), m.erase k)))
  ∧ (∀ p : String × Item,
        p ∈ MemoryCache.cleanup m now ↔ p ∈ m ∧ isExpired now p.2 = false)
  ∧ (it.expiration = some now →
        (MemoryCache.cleanup m now).lookup k = some it
      ∧ MemoryCache.Get m now k = (.ok (renderValue it.value), m)
      ∧ MemoryCache.Exists m now k = (true, m)) := by
  refine ⟨?_, ?_, ?_⟩
  · intro e he hgt
    have hexp : isExpired now it = true := by simp [isExpired, he, hgt]
    refine ⟨?_, ?_, ?_, ?_, ?_, ?_, ?_, ?_, ?_, ?_⟩
    · simp [MemoryCache.Get, hl, hexp]
    · simp [MemoryCache.Exists, hl, hexp]
    · simp [MemoryCache.TTL, hl, he, hgt]
    · simp [MemoryCache.HGet, hl, hexp]
    · simp [MemoryCache.HGetAll, hl, hexp]
    · simp [MemoryCache.LPop, hl, hexp]
    · simp [MemoryCache.RPop, hl, hexp]
    · intro start stop
      simp [MemoryCache.LRange, hl, hexp]
    · simp [MemoryCache.SMembers, hl, hexp]
    · intro member
      simp [MemoryCache.SIsMember, hl, hexp]
  · intro p
    simp [MemoryCache.cleanup, List.mem_filter]
  · intro he
    have hexp : isExpired now it = false := by simp [isExpired, he]
    refine ⟨?_, ?_, ?_⟩
    · exact Store.lookup_filter_of_keep m k it _ hl (by simp [hexp])
    · cases hv : it.value <;> simp [MemoryCache.Get, hl, hexp, hv, renderValue]
    · simp [MemoryCache.Exists, hl, hexp]

/-- C2, witness: the theorem instantiated on a one-entry table whose
expiry (10) is strictly before the current instant (11). -/
theorem C2_witness :
    MemoryCache.Get [("k", ⟨.vstr "v", some 10⟩)] 11 "k"
      = (.error (.keyNotFound "k"),
         Store.erase [("k", ⟨.vstr "v", some 10⟩)] "k")
  ∧ MemoryCache.Exists [("k", ⟨.vstr "v", some 10⟩)] 11 "k"
      = (false, Store.erase [("k", ⟨.vstr "v", some 10⟩)] "k") :=
  have h := (C2_lazy_expiry_agrees_with_sweep
    [("k", ⟨.vstr "v", some 10⟩)] 11 "k" "f" ⟨.vstr "v", some 10⟩ rfl).1
    10 rfl (by norm_num)
  ⟨h.1, h.2.1⟩

/-- C3, counterexample: the stored numeric string `"5"` can be parsed as
an integer, yet `Increment` on it fails with the non-numeric error and
leaves the table unchanged — the claim's "must succeed" is false. -/
theorem C3_counterexample :
    MemoryCache.Increment [("k", ⟨.vstr "5", none⟩)] 0 "k" 1
      = (.error .cannotIncrement, [("k", ⟨.vstr "5", none⟩)]) := rfl

/-- C3, amended: on a live key, `Increment` fails with the
`NotNumeric`-class error exactly when the stored value is not a native
number (a Go `int`/`int64`/`float64`); strings — numeric text included —
are never parsed and always fail; when the stored value is a native
integer, it succeeds and returns the prior value plus delta (within the
`int64` range). -/
theorem C3_not_numeric_is_not_parsed (m : Store) (now delta : Int) (k : String)
    (it : Item) (hl : m.lookup k = some it) (hlive : isExpired now it = false) :
    ((∀ n : Int, it.value ≠ .vint n) →
        MemoryCache.Increment m now k delta = (.error .cannotIncrement, m))
  ∧ (∀ n : Int, it.value = .vint n → -2 ^ 63 ≤ n + delta → n + delta < 2 ^ 63 →
        MemoryCache.Increment m now k delta
          = (.ok (n + delta), m.insert k ⟨.vint (n + delta), none⟩)) := by
  constructor
  · intro hnv
    cases hv : it.value with
    | vint n => exact absurd hv (hnv n)
    | vstr s => simp [MemoryCache.Increment, hl, hlive, hv]
    | vbool b => simp [MemoryCache.Increment, hl, hlive, hv]
    | vlist l => simp [MemoryCache.Increment, hl, hlive, hv]
    | vhash h => simp [MemoryCache.Increment, hl, hlive, hv]
    | vset s => simp [MemoryCache.Increment, hl, hlive, hv]
  · intro n hv h1 h2
    simp [MemoryCache.Increment, hl, hlive, hv, wrap64_eq_self (n + delta) h1 h2]

/-- C3, witness: the amended theorem on a live integer entry `5`
incremented by `2`, succeeding with `7`. -/
theorem C3_witness :
    MemoryCache.Increment [("k", ⟨.vint 5, none⟩)] 0 "k" 2
      = (.ok 7, Store.insert [("k", ⟨.vint 5, none⟩)] "k" ⟨.vint 7, none⟩) :=
  (C3_not_numeric_is_not_parsed [("k", ⟨.vint 5, none⟩)] 0 2 "k"
    ⟨.vint 5, none⟩ rfl rfl).2 5 rfl (by norm_num) (by norm_num)

/-- C4: `Set(k, v, ttl)` with `ttl <= 0` unconditionally overwrites the
prior entry with `v` and no expiry; thereafter, at every instant, `Get`
returns `v`'s text form, `Exists` is true, `TTL` reports "no expiry"
(`-1`), and the background sweep never removes the entry. -/
theorem C4_set_without_ttl_never_expires (m : Store) (now ttl : Int)
    (k : String) (v : Value) (httl : ttl ≤ 0) :
    (MemoryCache.Set m now k v ttl).2 = m.insert k ⟨v, none⟩
  ∧ (∀ t : Int, MemoryCache.Get (m.insert k ⟨v, none⟩) t k
        = (.ok (renderValue v), m.insert k ⟨v, none⟩))
  ∧ (∀ t : Int, MemoryCache.Exists (m.insert k ⟨v, none⟩) t k
        = (true, m.insert k ⟨v, none⟩))
  ∧ (∀ t : Int, MemoryCache.TTL (m.insert k ⟨v, none⟩) t k
        = (.ok (-1), m.insert k ⟨v, none⟩))
  ∧ (∀ t : Int,
        (MemoryCache.cleanup (m.insert k ⟨v, none⟩) t).lookup k = some ⟨v, none⟩) := by
  have hnot : ¬(ttl > 0) := by omega
  refine ⟨?_, ?_, ?_, ?_, ?_⟩
  · simp [MemoryCache.Set, MemoryCache.serialize, hnot]
  · intro t
    cases v <;> simp [MemoryCache.Get, Store.lookup_insert, isExpired, renderValue]
  · intro t
    simp [MemoryCache.Exists, Store.lookup_insert, isExpired]
  · intro t
    simp [MemoryCache.TTL, Store.lookup_insert]
  · intro t
    exact Store.lookup_filter_of_keep _ k ⟨v, none⟩ _ (Store.lookup_insert m k _)
      (by simp [isExpired])

/-- C4, witness: overwrite an existing entry with `Set("k", 7, 0)`; the
new entry has no expiry, and `Get` far in the future still returns `"7"`. -/
theorem C4_witness :
    (MemoryCache.Set [("k", ⟨.vstr "old", some 3⟩)] 0 "k" (.vint 7) 0).2
      = Store.insert [("k", ⟨.vstr "old", some 3⟩)] "k" ⟨.vint 7, none⟩
  ∧ MemoryCache.Get
      (Store.insert [("k", ⟨.vstr "old", some 3⟩)] "k" ⟨.vint 7, none⟩) 1000000 "k"
      = (.ok "7", Store.insert [("k", ⟨.vstr "old", some 3⟩)] "k" ⟨.vint 7, none⟩) :=
  have h := C4_set_without_ttl_never_expires [("k", ⟨.vstr "old", some 3⟩)] 0 0 "k"
    (.vint 7) (by norm_num)
  ⟨h.1, h.2.1 1000000⟩

/-- C5: on both engines `Increment` on an absent (or already-expired) key
behaves as though the prior value were zero, creating the key with value
`delta` and returning `delta`; `Decrement(key, delta)` equals
`Increment(key, -delta)` (for deltas whose negation is representable);
and the concrete chain yields `5` then `2` on each engine (the remote
side against the spec-modelled `INCRBY`/`DECRBY`). -/
theorem C5_create_on_increment :
    (∀ (m : Store) (now delta : Int) (k : String), m.lookup k = none →
        MemoryCache.Increment m now k delta
          = (.ok delta, m.insert k ⟨.vint delta, none⟩))
  ∧ (∀ (m : Store) (now delta e : Int) (k : String) (it : Item),
        m.lookup k = some it → it.expiration = some e → now > e →
        MemoryCache.Increment m now k delta
          = (.ok delta, (m.erase k).insert k ⟨.vint delta, none⟩))
  ∧ (∀ (m : Store) (now delta : Int) (k : String),
        -2 ^ 63 < delta → delta < 2 ^ 63 →
        MemoryCache.Decrement m now k delta = MemoryCache.Increment m now k (-delta))
  ∧ (MemoryCache.Increment [] 0 "counter" 5 = (.ok 5, [("counter", ⟨.vint 5, none⟩)])
      ∧ MemoryCache.Decrement [("counter", ⟨.vint 5, none⟩)] 0 "counter" 3
          = (.ok 2, [("counter", ⟨.vint 2, none⟩)]))
  ∧ (∀ (s : RedisStore) (k : String) (delta : Int), s.lookup k = none →
        redisIncrBy s k delta = (.ok delta, s.insert k (toString delta)))
  ∧ (redisIncrBy [] "counter" 5 = (.ok 5, [("counter", "5")])
      ∧ redisDecrBy [("counter", "5")] "counter" 3 = (.ok 2, [("counter", "2")])) := by
  refine ⟨?_, ?_, ?_, ⟨rfl, rfl⟩, ?_, ⟨rfl, rfl⟩⟩
  · intro m now delta k hl
    simp [MemoryCache.Increment, hl]
  · intro m now delta e k it hl he hgt
    have hexp : isExpired now it = true := by simp [isExpired, he, hgt]
    simp [MemoryCache.Increment, hl, hexp]
  · intro m now delta k h1 h2
    unfold MemoryCache.Decrement
    rw [wrap64_eq_self (-delta) (by omega) (by omega)]
  · intro s k delta hl
    simp [redisIncrBy, hl]

/-- C5, witness: the theorem's absent-key case on a table that holds an
unrelated key, on both engines. -/
theorem C5_witness :
    MemoryCache.Increment [("other", ⟨.vint 1, none⟩)] 0 "counter" 5
      = (.ok 5, Store.insert [("other", ⟨.vint 1, none⟩)] "counter" ⟨.vint 5, none⟩)
  ∧ redisIncrBy [("other", "1")] "counter" 5
      = (.ok 5, RedisStore.insert [("other", "1")] "counter" "5") :=
  ⟨C5_create_on_increment.1 [("other", ⟨.vint 1, none⟩)] 0 5 "counter" rfl,
   C5_create_on_increment.2.2.2.2.1 [("other", "1")] "counter" 5 rfl⟩

/-- C6: on the in-process engine, `TTL(k)` is the `NotFound`-class error
when `k` is absent or already expired (deleting the expired entry), `-1`
when `k` exists with no expiry, and immediately after
`Set(k, v, ttl)` with `ttl > 0` — at any instant `t` from the write up to
the expiry — the remaining duration, which is positive and at most
`ttl`. -/
theorem C6_ttl_contract (m : Store) (now : Int) (k : String) :
    (m.lookup k = none → MemoryCache.TTL m now k = (.error (.keyNotFound k), m))
  ∧ (∀ it : Item, m.lookup k = some it → it.expiration = none →
        MemoryCache.TTL m now k = (.ok (-1), m))
  ∧ (∀ (it : Item) (e : Int), m.lookup k = some it → it.expiration = some e →
        now > e → MemoryCache.TTL m now k = (.error (.keyNotFound k), m.erase k))
  ∧ (∀ (v : Value) (ttl t : Int), 0 < ttl → now ≤ t → t < now + ttl →
        (MemoryCache.TTL ((MemoryCache.Set m now k v ttl).2) t k).1
          = .ok (now + ttl - t)
      ∧ 0 < now + ttl - t ∧ now + ttl - t ≤ ttl) := by
  refine ⟨?_, ?_, ?_, ?_⟩
  · intro hl
    simp [MemoryCache.TTL, hl]
  · intro it hl he
    simp [MemoryCache.TTL, hl, he]
  · intro it e hl he hgt
    simp [MemoryCache.TTL, hl, he, hgt]
  · intro v ttl t h1 h2 h3
    have hset : (MemoryCache.Set m now k v ttl).2 = m.insert k ⟨v, some (now + ttl)⟩ := by
      simp [MemoryCache.Set, MemoryCache.serialize, h1]
    have hngt : ¬(t > now + ttl) := by omega
    rw [hset]
    refine ⟨?_, by omega, by omega⟩
    simp [MemoryCache.TTL, Store.lookup_insert, hngt]

/-- C6, witness: the theorem's last part at `now = 0`, `ttl = 100`,
queried at `t = 30`: the remaining duration is `70`. -/
theorem C6_witness :
    (MemoryCache.TTL ((MemoryCache.Set [] 0 "k" (.vstr "v") 100).2) 30 "k").1
      = .ok 70
  ∧ (0 : Int) < 70 ∧ (70 : Int) ≤ 100 :=
  (C6_ttl_contract [] 0 "k").2.2.2 (.vstr "v") 100 30
    (by norm_num) (by norm_num) (by norm_num)

/-- Erasing an entry that is expired (or looking past a missing one)
does not change any key's live value. -/
theorem liveValue_erase_expired (m : Store) (now : Int) (k : String) (it : Item)
    (hl : m.lookup k = some it) (hexp : isExpired now it = true) :
    ∀ k' : String, liveValue (m.erase k) now k' = liveValue m now k' := by
  intro k'
  by_cases h : k' = k
  · subst h
    simp [liveValue, Store.lookup_erase, hl, hexp]
  · simp [liveValue, Store.lookup_erase_ne m k k' h]

/-- `MGet` returns, slot for slot, each input key's live value (the lazy
deletions it performs along the way only remove expired entries, which
are observably absent anyway). -/
theorem MGet_eq_map_liveValue (now : Int) (keys : List String) :
    ∀ m : Store, (MemoryCache.MGet m now keys).1 = keys.map (liveValue m now) := by
  induction keys with
  | nil => intro m; simp [MemoryCache.MGet]
  | cons k ks ih =>
    intro m
    cases hm : m.lookup k with
    | none =>
      simp [MemoryCache.MGet, hm, liveValue, ih m]
    | some it =>
      cases hexp : isExpired now it with
      | false =>
        simp [MemoryCache.MGet, hm, hexp, liveValue, ih m]
      | true =>
        have heq : liveValue (m.erase k) now = liveValue m now :=
          funext (liveValue_erase_expired m now k it hm hexp)
        simp [MemoryCache.MGet, hm, hexp, ih (m.erase k), heq, liveValue]

/-- C7: `MGet` returns a list of exactly the input's length whose `i`-th
slot is the live value stored under the `i`-th input key (`none` when
absent or expired), preserving input order; in particular after
`MSet({"a": "1", "b": "2"}, ttl)` the batch read `MGet("a", "b", "c")`
returns `["1", "2", absent]` in that order, for every ttl. -/
theorem C7_mget_aligned_with_input (m : Store) (now : Int) (keys : List String) :
    (MemoryCache.MGet m now keys).1 = keys.map (liveValue m now)
  ∧ (MemoryCache.MGet m now keys).1.length = keys.length
  ∧ (∀ ttl : Int,
      (MemoryCache.MGet
        ((MemoryCache.MSet [] now [("a", .vstr "1"), ("b", .vstr "2")] ttl).2)
        now ["a", "b", "c"]).1
        = [some (.vstr "1"), some (.vstr "2"), none]) := by
  refine ⟨MGet_eq_map_liveValue now keys m, ?_, ?_⟩
  · rw [MGet_eq_map_liveValue now keys m]
    exact List.length_map keys _
  · intro ttl
    have hstore : (MemoryCache.MSet [] now [("a", .vstr "1"), ("b", .vstr "2")] ttl).2
        = [("a", ⟨.vstr "1", if ttl > 0 then some (now + ttl) else none⟩),
           ("b", ⟨.vstr "2", if ttl > 0 then some (now + ttl) else none⟩)] := by
      by_cases h : ttl > 0 <;>
        simp [MemoryCache.MSet, MemoryCache.serialize, Store.insert, h]
    have hnot : ¬(now > now + ttl) ∨ ¬(ttl > 0) := by omega
    rw [hstore, MGet_eq_map_liveValue]
    by_cases h : ttl > 0
    · have hn : ¬(now > now + ttl) := by omega
      simp [liveValue, Store.lookup, isExpired, h, hn]
    · simp [liveValue, Store.lookup, isExpired, h]

/-- C8: on a live list of length `n`, `LRange(key, start, stop)` follows
the zero-indexed contract: negative indices are shifted by `n` (`-1` is
the last element), `start` is clamped below at `0`, `stop` above at
`n - 1`, inverted clamped bounds give the empty sequence with no error,
and otherwise the rendered slice `start .. stop` is returned (the table
is untouched); and `LPush("L","x")` then `RPush("L","y")` then
`LRange("L", 0, -1)` returns `["x", "y"]`. -/
theorem C8_lrange_bounds (m : Store) (now : Int) (k : String) (it : Item)
    (xs : List Value) (hl : m.lookup k = some it)
    (hlive : isExpired now it = false) (hv : it.value = .vlist xs) :
    (∀ start stop : Int,
        MemoryCache.LRange m now k start stop = (.ok (lrangeSpec xs start stop), m))
  ∧ (MemoryCache.LRange
        ((MemoryCache.RPush ((MemoryCache.LPush [] now "L" [.vstr "x"]).2) now "L"
          [.vstr "y"]).2) now "L" 0 (-1)).1 = .ok ["x", "y"] := by
  constructor
  · intro start stop
    simp only [MemoryCache.LRange, hl, hlive, hv, Bool.false_eq_true, if_false,
      lrangeSpec]
    generalize (if start < 0 then (xs.length : Int) + start else start) = s1
    generalize (if stop < 0 then (xs.length : Int) + stop else stop) = t1
    have e1 : (if s1 < 0 then (0 : Int) else s1) = s1 ⊔ 0 := by
      rcases lt_or_le s1 0 with h | h
      · simp [h, max_eq_right h.le]
      · simp [not_lt.2 h, max_eq_left h]
    have e2 : (if t1 ≥ (xs.length : Int) then (xs.length : Int) - 1 else t1)
        = t1 ⊓ ((xs.length : Int) - 1) := by
      rcases le_or_lt (xs.length : Int) t1 with h | h
      · rw [if_pos h, min_eq_right (by omega)]
      · rw [if_neg (not_le.2 h), min_eq_left (by omega)]
    rw [e1, e2]
    by_cases hc : s1 ⊔ 0 > t1 ⊓ ((xs.length : Int) - 1)
    · simp [hc]
    · simp only [hc, if_false]
      rw [not_lt] at hc
      have hS : (0 : Int) ≤ s1 ⊔ 0 := le_max_right _ _
      have hT : t1 ⊓ ((xs.length : Int) - 1) ≤ (xs.length : Int) - 1 :=
        min_le_right _ _
      generalize hA : s1 ⊔ 0 = A at hc hS ⊢
      generalize hB : t1 ⊓ ((xs.length : Int) - 1) = B at hc hT ⊢
      have hmain := range_map_getD_eq_drop_take xs A.toNat (B - A + 1).toNat
        (by omega)
      simp only [Prod.mk.injEq, Except.ok.injEq]
      exact ⟨hmain, trivial⟩
  · rfl

/-- C8, witness: the theorem on a live two-element list, with
`LRange(0, -1)` returning the whole list. -/
theorem C8_witness :
    (MemoryCache.LRange [("L", ⟨.vlist [.vstr "a", .vstr "b"], none⟩)] 5 "L"
      0 (-1)).1 = .ok ["a", "b"] := by
  have h := (C8_lrange_bounds [("L", ⟨.vlist [.vstr "a", .vstr "b"], none⟩)] 5 "L"
    ⟨.vlist [.vstr "a", .vstr "b"], none⟩ [.vstr "a", .vstr "b"] rfl rfl rfl).1 0 (-1)
  rw [h]
  rfl

/-- C9: on the in-process engine, the container writes `HSet`, `LPush`,
`RPush`, `SAdd` applied to a live key of a different shape never return
an error (their Go implementations return `nil` on every path): they
silently replace the stored value in place with a fresh hash/list/set
holding only the newly written entries, keeping the item's expiry; the
`WrongType`-class errors (`key is not a hash/list/set`) are returned
only by the read/remove container operations — `HGet`, `HGetAll`,
`HDelete`, `LRange`, `SRem`, `SMembers`, `SIsMember` report them, while
`LPop`/`RPop` on a wrong-shaped value surface the conflated
`list is empty` error. -/
theorem C9_wrong_shape_writes_replace (m : Store) (now : Int) (k : String)
    (it : Item) (hl : m.lookup k = some it) (hlive : isExpired now it = false) :
    ((∀ h, it.value ≠ .vhash h) → ∀ pairs,
        MemoryCache.HSet m now k pairs
          = ((), m.insert k
              ⟨.vhash (pairs.foldl (fun h p => MemoryCache.hashInsert h p.1 p.2) []),
               it.expiration⟩))
  ∧ ((∀ l, it.value ≠ .vlist l) → ∀ values,
        MemoryCache.LPush m now k values
          = ((), m.insert k
              ⟨.vlist (values.foldl (fun l v => v :: l) []), it.expiration⟩)
      ∧ MemoryCache.RPush m now k values
          = ((), m.insert k ⟨.vlist values, it.expiration⟩))
  ∧ ((∀ s, it.value ≠ .vset s) → ∀ members,
        MemoryCache.SAdd m now k members
          = ((), m.insert k
              ⟨.vset (members.foldl (fun s v => MemoryCache.setInsert s v) []),
               it.expiration⟩))
  ∧ ((∀ h, it.value ≠ .vhash h) → ∀ f fs,
        (MemoryCache.HGet m now k f).1 = .error (.notAHash k)
      ∧ (MemoryCache.HGetAll m now k).1 = .error (.notAHash k)
      ∧ (MemoryCache.HDelete m now k fs).1 = .error (.notAHash k))
  ∧ ((∀ l, it.value ≠ .vlist l) → ∀ start stop,
        (MemoryCache.LRange m now k start stop).1 = .error (.notAList k)
      ∧ (MemoryCache.LPop m now k).1 = .error (.listEmpty k)
      ∧ (MemoryCache.RPop m now k).1 = .error (.listEmpty k))
  ∧ ((∀ s, it.value ≠ .vset s) → ∀ members member,
        (MemoryCache.SRem m now k members).1 = .error (.notASet k)
      ∧ (MemoryCache.SMembers m now k).1 = .error (.notASet k)
      ∧ (MemoryCache.SIsMember m now k member).1 = .error (.notASet k)) := by
  have hbase : ∀ empty : Value, MemoryCache.writeBase m now k empty = it := by
    intro empty
    simp [MemoryCache.writeBase, hl, hlive]
  refine ⟨?_, ?_, ?_, ?_, ?_, ?_⟩
  · intro hsh pairs
    cases hv : it.value <;>
      simp_all [MemoryCache.HSet, MemoryCache.serialize, hl, hlive]
  · intro hsh values
    constructor
    · cases hv : it.value <;>
        simp_all [MemoryCache.LPush, MemoryCache.serialize, hbase]
    · cases hv : it.value <;>
        simp_all [MemoryCache.RPush, MemoryCache.serialize, hbase, map_serialize]
  · intro hsh members
    cases hv : it.value <;>
      simp_all [MemoryCache.SAdd, MemoryCache.serialize, hbase]
  · intro hsh f fs
    cases hv : it.value <;>
      simp_all [MemoryCache.HGet, MemoryCache.HGetAll, MemoryCache.HDelete, hl, hlive]
  · intro hsh start stop
    cases hv : it.value <;>
      simp_all [MemoryCache.LRange, MemoryCache.LPop, MemoryCache.RPop, hl, hlive]
  · intro hsh members member
    cases hv : it.value <;>
      simp_all [MemoryCache.SRem, MemoryCache.SMembers, MemoryCache.SIsMember, hl, hlive]

/-- C9, witness: on a live scalar entry, `HSet` silently replaces the
value with a fresh one-field hash, while `HGet` reports the
`WrongType`-class error. -/
theorem C9_witness :
    MemoryCache.HSet [("k", ⟨.vstr "scalar", none⟩)] 0 "k" [("f", .vstr "1")]
      = ((), Store.insert [("k", ⟨.vstr "scalar", none⟩)] "k"
          ⟨.vhash [("f", .vstr "1")], none⟩)
  ∧ (MemoryCache.HGet [("k", ⟨.vstr "scalar", none⟩)] 0 "k" "f").1
      = .error (.notAHash "k") :=
  have h := C9_wrong_shape_writes_replace [("k", ⟨.vstr "scalar", none⟩)] 0 "k"
    ⟨.vstr "scalar", none⟩ rfl rfl
  ⟨h.1 (fun _ hx => by simp at hx) [("f", .vstr "1")],
   (h.2.2.2.1 (fun _ hx => by simp at hx) "f" []).1⟩

/-- C10: on the in-process engine, `Expire(k, ttl)` with `ttl <= 0` on a
live key succeeds and sets the key's expiry to `now + ttl`, an instant
at or before `now` — unlike `Set`, where `ttl <= 0` stores no expiry at
all — so at every strictly later instant the key is treated as absent:
`Get` returns the `NotFound`-class error (deleting the entry) and
`Exists` is false. -/
theorem C10_expire_nonpositive_kills (m : Store) (now ttl : Int) (k : String)
    (it : Item) (hl : m.lookup k = some it) (hlive : isExpired now it = false)
    (httl : ttl ≤ 0) :
    MemoryCache.Expire m now k ttl
      = (.ok (), m.insert k ⟨it.value, some (now + ttl)⟩)
  ∧ now + ttl ≤ now
  ∧ (∀ t : Int, t > now →
        MemoryCache.Get (m.insert k ⟨it.value, some (now + ttl)⟩) t k
          = (.error (.keyNotFound k),
             (m.insert k ⟨it.value, some (now + ttl)⟩).erase k)
      ∧ MemoryCache.Exists (m.insert k ⟨it.value, some (now + ttl)⟩) t k
          = (false, (m.insert k ⟨it.value, some (now + ttl)⟩).erase k))
  ∧ (∀ v : Value, (MemoryCache.Set m now k v ttl).2 = m.insert k ⟨v, none⟩) := by
  have hnot : ¬(ttl > 0) := by omega
  refine ⟨?_, by omega, ?_, ?_⟩
  · simp [MemoryCache.Expire, hl, hlive]
  · intro t ht
    have hexp : isExpired t ⟨it.value, some (now + ttl)⟩ = true := by
      simp [isExpired]
      omega
    constructor
    · simp [MemoryCache.Get, Store.lookup_insert, hexp]
    · simp [MemoryCache.Exists, Store.lookup_insert, hexp]
  · intro v
    simp [MemoryCache.Set, MemoryCache.serialize, hnot]

/-- C10, witness: `Expire("k", -5)` at instant `100` on a live entry,
then `Get` at instant `101` misses. -/
theorem C10_witness :
    MemoryCache.Expire [("k", ⟨.vstr "v", none⟩)] 100 "k" (-5)
      = (.ok (), Store.insert [("k", ⟨.vstr "v", none⟩)] "k" ⟨.vstr "v", some 95⟩)
  ∧ MemoryCache.Exists
      (Store.insert [("k", ⟨.vstr "v", none⟩)] "k" ⟨.vstr "v", some 95⟩) 101 "k"
      = (false,
         (Store.insert [("k", ⟨.vstr "v", none⟩)] "k" ⟨.vstr "v", some 95⟩).erase "k") :=
  have h := C10_expire_nonpositive_kills [("k", ⟨.vstr "v", none⟩)] 100 (-5) "k"
    ⟨.vstr "v", none⟩ rfl rfl (by norm_num)
  ⟨h.1, (h.2.2.1 101 (by norm_num)).2⟩
